import Mathlib

/-!
Verification of the seller/price extraction engine of `server.py`
(Qoo10 price-matcher backend).

The Python source is shallowly embedded: every definition below is a
direct translation of a function or code fragment of `server.py`
(line numbers are cited in doc comments).  Python strings are modelled
as Lean `String` / `List Char`; Python string methods are re-implemented
over character lists (`lower`/`strip` cover the ASCII behaviour, which
is all the repository's inputs exercise); Python's stable `sorted` is
modelled by `List.insertionSort`, which is stable for the same ordering;
Python's ordered `dict` used for deduplication is modelled by an
in-place-update list fold; Python exceptions are modelled with `Except`.
-/

namespace Qoo10

/-! ### Python character/string primitives -/

/-- ASCII decimal digit, the characters matched by the digit class of the
price patterns in `server.py` lines 147 and 288. -/
def isPyDigit (c : Char) : Bool := '0' ≤ c && c ≤ '9'

/-- A character matched by the class inside of the patterns
accepting digits with optional thousands separators. -/
def isDigitComma (c : Char) : Bool := isPyDigit c || c == ','

/-- Whitespace as stripped by Python `str.strip()` and matched by the
whitespace class of the regular expressions (ASCII set). -/
def isPySpace (c : Char) : Bool :=
  c == ' ' || c == '\t' || c == '\n' || c == '\r' || c == '\x0b' || c == '\x0c'

/-- ASCII case folding, the behaviour of Python `str.lower()` on the
repository's seller names. -/
def asciiLower (c : Char) : Char :=
  if 'A' ≤ c && c ≤ 'Z' then Char.ofNat (c.toNat + 32) else c

/-- Python `str.strip()` on a character list. -/
def pyStrip (l : List Char) : List Char :=
  ((l.dropWhile isPySpace).reverse.dropWhile isPySpace).reverse

/-- `s['name'].lower().strip()`, the deduplication key computed at
`server.py` lines 337 and 377. -/
def normName (s : String) : String :=
  ⟨pyStrip (s.data.map asciiLower)⟩

/-! ### Data model -/

/-- One raw candidate / seller offer dictionary
`{'name': ..., 'price': ..., 'itemCode': ...}` as built by the strategy
runners of `_scrape_catalog`; the `rank` key is added later by
`api_scrape` (0 models "key absent"). -/
structure Seller where
  name : String
  price : Nat
  itemCode : String
  rank : Nat
deriving DecidableEq

/-! ### Merger / deduplicator / ranker (`api_scrape`, lines 335-344) -/

/-- The normalized deduplication key of a candidate,
`s['name'].lower().strip()`. -/
def sellerKey (s : Seller) : String := normName s.name

/-- One step of the Python `dict` update
`if key not in seen or s['price'] < seen[key]['price']: seen[key] = s`:
the first entry with the same normalized name is replaced in place when
the new price is strictly lower, otherwise kept; a fresh key is appended
at the end (insertion order of Python 3.7+ dicts). -/
def updateSeen (acc : List Seller) (s : Seller) : List Seller :=
  match acc with
  | [] => [s]
  | t :: ts =>
    if sellerKey t = sellerKey s then
      (if s.price < t.price then s else t) :: ts
    else
      t :: updateSeen ts s

/-- The full deduplication loop of `server.py` lines 335-339:
`seen.values()` after folding the raw candidate list into the dict. -/
def dedupSellers (l : List Seller) : List Seller :=
  l.foldl updateSeen []

/-- The sort key relation of `sorted(seen.values(), key=lambda x: x['price'])`
(`server.py` line 340). -/
def priceLE (a b : Seller) : Prop := a.price ≤ b.price

instance : DecidableRel priceLE := fun a b => Nat.decLe a.price b.price

instance : IsTotal Seller priceLE := ⟨fun a b => Nat.le_total a.price b.price⟩

instance : IsTrans Seller priceLE := ⟨fun _ _ _ h h' => Nat.le_trans h h'⟩

/-- `for i, s in enumerate(sellers, 1): s['rank'] = i`
(`server.py` lines 343-344), starting at a given rank. -/
def assignRanksFrom : Nat → List Seller → List Seller
  | _, [] => []
  | n, s :: t => { s with rank := n } :: assignRanksFrom (n + 1) t

/-- The complete merge/dedup/sort/rank step of `api_scrape`
(`server.py` lines 335-344): deduplicate by normalized name keeping the
cheaper entry, sort ascending by price with a stable sort, assign
1-based ranks. -/
def mergeRank (l : List Seller) : List Seller :=
  assignRanksFrom 1 (List.insertionSort priceLE (dedupSellers l))

/-! ### Token classifiers -/

/-- The numeric price-range check of the structural-element strategy,
`if (p > 50 && p < 500000)` (`server.py` lines 142 and 208). -/
def priceInRange (p : Nat) : Bool := decide (50 < p) && decide (p < 500000)

/-- The numeric price-range check of the free-text line scan,
`if 100 < price < 100000` (`server.py` line 291). -/
def textPriceInRange (p : Nat) : Bool := decide (100 < p) && decide (p < 100000)

/-- The seller-name acceptance check of the structural-element strategy,
`const n = el.textContent.trim(); if (n.length > 0 && n.length < 50)`
(`server.py` lines 158-159). -/
def nameOk (s : String) : Bool :=
  decide (0 < (pyStrip s.data).length) && decide ((pyStrip s.data).length < 50)

/-! ### Free-text line scan (`server.py` lines 283-296)

The two regular expressions tried on each line are
`¥\s*([\d,]+)` and `([\d,]+)\s*円`.  Both are built from pairwise
disjoint character classes, so the Python regex engine's
leftmost-greedy matching never backtracks successfully; they are
modelled by trying a greedy match at each start position from the
left.  A match is returned as (whole match, digit group). -/

/-- Greedy match of `¥\s*([\d,]+)` anchored at the head of the list. -/
def matchYenAt (l : List Char) : Option (List Char × List Char) :=
  match l with
  | '¥' :: rest =>
    let sp := rest.takeWhile isPySpace
    let run := (rest.dropWhile isPySpace).takeWhile isDigitComma
    if run = [] then none else some ('¥' :: (sp ++ run), run)
  | _ => none

/-- Greedy match of `([\d,]+)\s*円` anchored at the head of the list. -/
def matchEnAt (l : List Char) : Option (List Char × List Char) :=
  let run := l.takeWhile isDigitComma
  if run = [] then none
  else
    let rest := l.dropWhile isDigitComma
    let sp := rest.takeWhile isPySpace
    match rest.dropWhile isPySpace with
    | '円' :: _ => some (run ++ sp ++ ['円'], run)
    | _ => none

/-- `re.search`: try the anchored matcher at each start position, left
to right. -/
def searchFirst (f : List Char → Option (List Char × List Char)) :
    List Char → Option (List Char × List Char)
  | [] => f []
  | c :: rest =>
    match f (c :: rest) with
    | some r => some r
    | none => searchFirst f rest

/-- Python `int(s)` on a comma-stripped digit string: raises `ValueError`
(`none`) unless the string is a non-empty digit run. -/
def pyInt? (s : List Char) : Option Nat :=
  if s ≠ [] && s.all isPyDigit then
    some (s.foldl (fun a c => 10 * a + (c.toNat - '0'.toNat)) 0)
  else none

/-- Python `str.find`: index of the first occurrence of `sub`, `-1` when
absent. -/
def pyFindAux (sub : List Char) : List Char → Nat → Option Nat
  | [], i => if sub.isPrefixOf ([] : List Char) then some i else none
  | c :: t, i => if sub.isPrefixOf (c :: t) then some i else pyFindAux sub t (i + 1)

/-- `line.find(sub)` with Python's `-1`-for-absent convention. -/
def pyFind (l sub : List Char) : Int :=
  match pyFindAux sub l 0 with
  | some i => (i : Int)
  | none => -1

/-- Python slice `l[:n]`, including the negative-index convention. -/
def pySliceTo (l : List Char) (n : Int) : List Char :=
  if n < 0 then l.take (((l.length : Int) + n).toNat) else l.take n.toNat

/-- Shared tail of the per-line processing:
`price = int(m.group(1).replace(',', ''))` (a `ValueError` from `int` is
an exception, `.error`), the plausible-range check, and the name
extraction of `server.py` lines 290-296: the stripped text left of the
match, defaulting to the literal `"셀러"` and truncated to 30
characters. -/
def lineFlush (cs g0 g1 : List Char) : Except String (Option Seller) :=
  match pyInt? (g1.filter (fun c => !(c == ','))) with
  | none => Except.error "ValueError"
  | some price =>
    if textPriceInRange price then
      let rawName := pyStrip (pySliceTo cs (pyFind cs g0))
      let nm := if rawName = [] then "셀러".data else rawName
      Except.ok (some ⟨⟨nm.take 30⟩, price, "", 0⟩)
    else Except.ok none

/-- Processing of one line of `document.body.innerText` by the loop of
`server.py` lines 286-296: search the two price patterns in order and
flush a candidate from the match. -/
def lineResult (line : String) : Except String (Option Seller) :=
  let cs := line.data
  match searchFirst matchYenAt cs with
  | some (g0, g1) => lineFlush cs g0 g1
  | none =>
    match searchFirst matchEnAt cs with
    | some (g0, g1) => lineFlush cs g0 g1
    | none => Except.ok none

/-- The whole free-text scan over the ordered lines of the page body
text (`server.py` lines 285-296); an exception on any line aborts the
scan (and, in `_scrape_catalog`, the extraction). -/
def textScanE : List String → Except String (List Seller)
  | [] => Except.ok []
  | line :: rest =>
    match lineResult line with
    | Except.error e => Except.error e
    | Except.ok none => textScanE rest
    | Except.ok (some c) =>
      match textScanE rest with
      | Except.error e => Except.error e
      | Except.ok cs => Except.ok (c :: cs)

/-- Python `text_content.split('\n')` (`server.py` line 285): split the
body text into lines at newline characters (the accumulator holds the
current line, reversed). -/
def splitNl : List Char → List Char → List (List Char)
  | [], cur => [cur.reverse]
  | c :: rest, cur =>
    if c = '\n' then cur.reverse :: splitNl rest []
    else splitNl rest (c :: cur)

/-- The candidates the free-text strategy contributes to `sellers`: an
exception is caught by the handler at `server.py` line 301, which makes
the whole extraction return `[]`. -/
def textScanRun (body : String) : List Seller :=
  match textScanE ((splitNl body.data []).map (fun cs => (⟨cs⟩ : String))) with
  | Except.ok l => l
  | Except.error _ => []

/-! ### Strategy selector (`_scrape_catalog`, lines 98-299)

The six extraction strategies run strictly in source order, each guarded
by emptiness of the accumulated `results`/`sellers` list:
DOM selector scan (lines 127-177), embedded-script JSON scan (guarded at
line 180), all-price-elements scan (guarded at line 201), AJAX API
(guarded at line 226), HTML regex (guarded at line 259), free-text line
scan (guarded at line 278).  The first five consult the rendered page, an
external capability; the page is therefore embedded as the tuple of the
candidate lists those five queries produce, while the sixth (pure text
processing) is computed by `textScanRun`. -/

/-- The six strategies of `_scrape_catalog`, in source order. -/
inductive Strat
  | selectorScan
  | scriptScan
  | priceElemScan
  | ajaxApi
  | htmlRegex
  | freeTextScan
deriving DecidableEq

/-- A rendered catalog page, embedded as the raw candidate lists the
five DOM/network-dependent strategies would extract from it plus the
body inner text consumed by the free-text strategy. -/
structure Page where
  selectorItems : List Seller
  scriptMatches : List Seller
  priceElems : List Seller
  ajaxItems : List Seller
  htmlMatches : List Seller
  bodyText : String
deriving DecidableEq

/-- The raw candidate list each strategy extracts from the page. -/
def stratOut (pg : Page) : Strat → List Seller
  | Strat.selectorScan => pg.selectorItems
  | Strat.scriptScan => pg.scriptMatches
  | Strat.priceElemScan => pg.priceElems
  | Strat.ajaxApi => pg.ajaxItems
  | Strat.htmlRegex => pg.htmlMatches
  | Strat.freeTextScan => textScanRun pg.bodyText

/-- Position of a strategy in the fixed source order. -/
def stratIdx : Strat → Nat
  | Strat.selectorScan => 0
  | Strat.scriptScan => 1
  | Strat.priceElemScan => 2
  | Strat.ajaxApi => 3
  | Strat.htmlRegex => 4
  | Strat.freeTextScan => 5

/-- The ordered strategy/result sequence of one extraction run. -/
def stratSeq (pg : Page) : List (Strat × List Seller) :=
  [(Strat.selectorScan, pg.selectorItems),
   (Strat.scriptScan, pg.scriptMatches),
   (Strat.priceElemScan, pg.priceElems),
   (Strat.ajaxApi, pg.ajaxItems),
   (Strat.htmlRegex, pg.htmlMatches),
   (Strat.freeTextScan, textScanRun pg.bodyText)]

/-- Run an ordered sequence of (strategy, result) pairs the way
`_scrape_catalog` chains its emptiness guards: stop at the first
non-empty result.  The second component records which strategies were
invoked. -/
def runStrats : List (Strat × List Seller) → List Seller × List Strat
  | [] => ([], [])
  | (s, out) :: rest =>
    if out = [] then
      let r := runStrats rest
      (r.1, s :: r.2)
    else (out, [s])

/-- The full strategy selection of `_scrape_catalog`: the recovered raw
candidate list together with the invoked strategies. -/
def pipeline (pg : Page) : List Seller × List Strat :=
  runStrats (stratSeq pg)

/-! ### Extraction entry points and API routes -/

/-- The input to one catalog's extraction attempt.  `initFailure` models
an exception raised before the `try` block of `_scrape_catalog` (lines
88-95: browser init, page creation), which escapes `scrape_catalog_sync`;
`fetched (.error ...)` models an exception inside the `try` block (e.g.
the 30-second `page.goto` timeout at line 99), which the handler at line
301 converts to an empty result; `fetched (.ok pg)` is a successful
render. -/
inductive CatalogFetch
  | initFailure (msg : String)
  | fetched (r : Except String Page)

/-- `scrape_catalog_sync` (`server.py` lines 313-317 wrapping
`_scrape_catalog`): an in-`try` failure is caught and returns `[]`
(lines 301-308); a pre-`try` failure propagates as an exception. -/
def scrapeCatalogSync : CatalogFetch → Except String (List Seller)
  | CatalogFetch.initFailure msg => Except.error msg
  | CatalogFetch.fetched (Except.error _) => Except.ok []
  | CatalogFetch.fetched (Except.ok pg) => Except.ok (pipeline pg).1

/-- The JSON outcome every caller of the scrape routes receives. -/
structure Outcome where
  success : Bool
  sellers : List Seller
deriving DecidableEq

/-- A row of the `price_snapshots` table (`server.py` lines 30-37). -/
structure SnapshotRow where
  catalogNo : Nat
  sellerName : String
  price : Nat
  rank : Nat
deriving DecidableEq

/-- The snapshot rows inserted for one merged seller list
(`server.py` lines 349-353). -/
def snapshotRows (cat : Nat) (sellers : List Seller) : List SnapshotRow :=
  sellers.map (fun s => ⟨cat, s.name, s.price, s.rank⟩)

/-- The `/api/scrape/<catalog_no>` route (`server.py` lines 328-358):
scrape, merge/rank, persist the snapshot only when non-empty
(`if sellers:` at line 347), and convert any exception to a
`success: False` outcome with an empty seller list.  Returns the JSON
outcome together with the persisted write (`none` = no DB write). -/
def apiScrape (cat : Nat) (f : CatalogFetch) : Outcome × Option (List SnapshotRow) :=
  match scrapeCatalogSync f with
  | Except.error _ => (⟨false, []⟩, none)
  | Except.ok raw =>
    let snap := mergeRank raw
    (⟨true, snap⟩, if snap = [] then none else some (snapshotRows cat snap))

/-- One entry of the `/api/scrape-all` request body: the (optional)
catalog number and the extraction input for that catalog. -/
def BatchEntry : Type := Option Nat × CatalogFetch

/-- The `/api/scrape-all` route (`server.py` lines 361-398): entries with
a missing or falsy (zero) catalog number are skipped (`if not catalog_no:
continue`), each remaining catalog is scraped/merged inside its own
`try`, and a failure is converted to a `success: False` empty outcome for
that catalog only — the loop then continues with the next catalog. -/
def apiScrapeAll : List BatchEntry → List (Nat × Outcome)
  | [] => []
  | (none, _) :: rest => apiScrapeAll rest
  | (some 0, _) :: rest => apiScrapeAll rest
  | (some (Nat.succ c), f) :: rest =>
    (c + 1, (apiScrape (c + 1) f).1) :: apiScrapeAll rest

/-! ### Price-change events (`price_changes` table)

The `created_at` column is declared `TIMESTAMP DEFAULT CURRENT_TIMESTAMP`
(`server.py` line 45): SQLite stores the TEXT `"YYYY-MM-DD HH:MM:SS"`
(UTC, space separator).  The query bound of `/api/recent-drops`
(`server.py` line 429) is `(datetime.now() - timedelta(hours=24))
.isoformat()`: the TEXT `"YYYY-MM-DDTHH:MM:SS[.ffffff]"` (local clock,
`'T'` separator).  `TIMESTAMP` has NUMERIC affinity and neither text
converts to a number, so SQLite evaluates `created_at >= ?` as a
byte-wise (memcmp / BINARY collation) comparison of the two texts.  The
model keeps both facts: a row's creation instant is a calendar
`Timestamp`, the comparison is performed on the rendered texts exactly
as the code does.  The server's local clock is taken to be UTC here so
that the stored instants and the query clock share one timeline (a
non-UTC local clock only shifts the window further); the fractional
`.ffffff` part of `isoformat()` is omitted (the comparisons below
diverge at the separator byte, before any fraction). -/

/-- A calendar timestamp `(year, month, day, hour, minute, second)`. -/
structure Timestamp where
  year : Nat
  month : Nat
  day : Nat
  hour : Nat
  minute : Nat
  second : Nat
deriving DecidableEq

/-- The ASCII digit character of `d % 10`. -/
def digitChar (d : Nat) : Char := Char.ofNat (48 + d % 10)

/-- Two-digit zero-padded decimal. -/
def pad2 (n : Nat) : List Char := [digitChar (n / 10), digitChar n]

/-- Four-digit zero-padded decimal. -/
def pad4 (n : Nat) : List Char :=
  [digitChar (n / 1000), digitChar (n / 100), digitChar (n / 10), digitChar n]

/-- `"YYYY-MM-DD<sep>HH:MM:SS"` with the given date/time separator. -/
def timestampText (sep : Char) (t : Timestamp) : List Char :=
  pad4 t.year ++ '-' :: pad2 t.month ++ '-' :: pad2 t.day ++
    sep :: pad2 t.hour ++ ':' :: pad2 t.minute ++ ':' :: pad2 t.second

/-- The TEXT SQLite's `CURRENT_TIMESTAMP` stores into `created_at`:
space-separated. -/
def sqliteTimestampText (t : Timestamp) : String := ⟨timestampText ' ' t⟩

/-- The TEXT Python's `datetime.isoformat()` produces for the query
bound: `'T'`-separated. -/
def isoformatText (t : Timestamp) : String := ⟨timestampText 'T' t⟩

/-- Byte-wise (memcmp) string order, SQLite's BINARY collation on these
ASCII texts: `memcmpLE a b` is `a <= b`. -/
def memcmpLE : List Char → List Char → Bool
  | [], _ => true
  | _ :: _, [] => false
  | a :: as, b :: bs =>
    if a.toNat < b.toNat then true
    else if b.toNat < a.toNat then false
    else memcmpLE as bs

/-- True chronological order of calendar timestamps (lexicographic on
the components, which is calendar order). -/
def chronoLE (a b : Timestamp) : Bool :=
  if a.year < b.year then true else if b.year < a.year then false
  else if a.month < b.month then true else if b.month < a.month then false
  else if a.day < b.day then true else if b.day < a.day then false
  else if a.hour < b.hour then true else if b.hour < a.hour then false
  else if a.minute < b.minute then true else if b.minute < a.minute then false
  else decide (a.second ≤ b.second)

/-- A stored row of the `price_changes` table (`server.py` lines 38-46):
`createdAt` is the UTC instant at which SQLite's
`DEFAULT CURRENT_TIMESTAMP` filled the column (the stored TEXT is
`sqliteTimestampText createdAt`). -/
structure PriceChangeRow where
  catalogNo : Nat
  oldPrice : Option Int
  newPrice : Int
  applied : Bool
  createdAt : Timestamp
deriving DecidableEq

/-- The SQL row predicate of `/api/recent-drops/<catalog_no>`
(`server.py` lines 426-435) as SQLite evaluates it:
`catalog_no=? AND applied=1 AND new_price<old_price AND created_at>=?`,
where `created_at` holds the stored `CURRENT_TIMESTAMP` text, `?` is the
`isoformat()` text of `now - 24h`, and `>=` on the two TEXT values is
the byte-wise comparison; an SQL `NULL` old price makes
`new_price<old_price` non-true. -/
def dropRowSql (cat : Nat) (sinceText : String) (e : PriceChangeRow) : Bool :=
  decide (e.catalogNo = cat) && e.applied &&
    (match e.oldPrice with
     | some o => decide (e.newPrice < o)
     | none => false) &&
    memcmpLE sinceText.data (sqliteTimestampText e.createdAt).data

/-- The `COUNT(*)` of `/api/recent-drops/<catalog_no>` over the stored
rows; `since` is the instant `datetime.now() - timedelta(hours=24)` of
the query's clock, rendered with `isoformat()` exactly as at
`server.py` line 429. -/
def recentDropsSql (db : List PriceChangeRow) (cat : Nat)
    (since : Timestamp) : Nat :=
  (db.filter (dropRowSql cat (isoformatText since))).length

/-! ### Specification-side helper functions

These are used to state properties of the definitions above; they are
phrased from the spec's vocabulary (group of duplicates, lowest price,
first-seen tie-breaking), not from the code. -/

/-- The normalized keys of a candidate list, in order. -/
def sellerKeys (l : List Seller) : List String :=
  l.map sellerKey

/-- First value with the given normalized key, in list order. -/
def findByKey (k : String) : List Seller → Option Seller
  | [] => none
  | s :: t => if sellerKey s = k then some s else findByKey k t

/-- Keep the incumbent unless the newcomer's price is strictly lower:
the spec's "lowest price wins, ties resolved by first-seen order". -/
def bestStep (o : Option Seller) (s : Seller) : Option Seller :=
  match o with
  | none => some s
  | some t => if s.price < t.price then some s else some t

/-- The first-seen lowest-priced candidate of a group. -/
def bestFold (o : Option Seller) (l : List Seller) : Option Seller :=
  l.foldl bestStep o

/-! ## Lemmas: the deduplication fold -/

theorem updateSeen_find_same (acc : List Seller) (s : Seller) (k : String)
    (h : sellerKey s = k) :
    findByKey k (updateSeen acc s) = bestStep (findByKey k acc) s := by
  induction acc with
  | nil => simp [updateSeen, findByKey, bestStep, h]
  | cons t ts ih =>
    by_cases ht : sellerKey t = sellerKey s
    · rw [updateSeen, if_pos ht]
      by_cases hp : s.price < t.price
      · simp [findByKey, bestStep, hp, h, ht.trans h]
      · simp [findByKey, bestStep, hp, h, ht.trans h]
    · rw [updateSeen, if_neg ht]
      have htk : ¬ sellerKey t = k := fun hc => ht (hc.trans h.symm)
      simp [findByKey, htk, ih]

theorem updateSeen_find_other (acc : List Seller) (s : Seller) (k : String)
    (h : ¬ sellerKey s = k) :
    findByKey k (updateSeen acc s) = findByKey k acc := by
  induction acc with
  | nil => simp [updateSeen, findByKey, h]
  | cons t ts ih =>
    by_cases ht : sellerKey t = sellerKey s
    · rw [updateSeen, if_pos ht]
      have htk : ¬ sellerKey t = k := fun hc => h (ht.symm.trans hc)
      by_cases hp : s.price < t.price
      · simp [findByKey, hp, h, htk]
      · simp [findByKey, hp, h, htk]
    · rw [updateSeen, if_neg ht]
      by_cases htk : sellerKey t = k
      · simp [findByKey, htk]
      · simp [findByKey, htk, ih]

theorem dedup_fold_find (l : List Seller) : ∀ (acc : List Seller) (k : String),
    findByKey k (l.foldl updateSeen acc) =
      bestFold (findByKey k acc) (l.filter (fun c => decide (sellerKey c = k))) := by
  induction l with
  | nil => intro acc k; simp [bestFold]
  | cons s t ih =>
    intro acc k
    by_cases hs : sellerKey s = k
    · rw [List.foldl_cons, ih, updateSeen_find_same acc s k hs]
      simp [List.filter_cons, hs, bestFold]
    · rw [List.foldl_cons, ih, updateSeen_find_other acc s k hs]
      simp [List.filter_cons, hs, bestFold]

/-- The deduplication dict lookup is exactly "first-seen lowest-priced of
the normalized-name group". -/
theorem dedup_find (l : List Seller) (k : String) :
    findByKey k (dedupSellers l) =
      bestFold none (l.filter (fun c => decide (sellerKey c = k))) := by
  have h := dedup_fold_find l [] k
  simpa [dedupSellers, findByKey] using h

theorem findByKey_mem (k : String) (acc : List Seller) (b : Seller)
    (h : findByKey k acc = some b) : b ∈ acc ∧ sellerKey b = k := by
  induction acc with
  | nil => simp [findByKey] at h
  | cons t ts ih =>
    by_cases ht : sellerKey t = k
    · rw [findByKey, if_pos ht] at h
      cases h
      exact ⟨List.mem_cons_self _ _, ht⟩
    · rw [findByKey, if_neg ht] at h
      rcases ih h with ⟨hm, hk⟩
      exact ⟨List.mem_cons_of_mem _ hm, hk⟩

theorem mem_sellerKeys_updateSeen (acc : List Seller) (s : Seller) (k : String) :
    k ∈ sellerKeys (updateSeen acc s) ↔ k ∈ sellerKeys acc ∨ k = sellerKey s := by
  induction acc with
  | nil => simp [updateSeen, sellerKeys]
  | cons t ts ih =>
    by_cases ht : sellerKey t = sellerKey s
    · rw [updateSeen, if_pos ht]
      by_cases hp : s.price < t.price
      · simp only [if_pos hp, sellerKeys, List.map_cons, List.mem_cons] at *
        constructor
        · rintro (h | h)
          · exact Or.inr h
          · exact Or.inl (Or.inr h)
        · rintro ((h | h) | h)
          · exact Or.inl (h.trans ht)
          · exact Or.inr h
          · exact Or.inl h
      · simp only [if_neg hp, sellerKeys, List.map_cons, List.mem_cons] at *
        constructor
        · rintro (h | h)
          · exact Or.inl (Or.inl h)
          · exact Or.inl (Or.inr h)
        · rintro ((h | h) | h)
          · exact Or.inl h
          · exact Or.inr h
          · exact Or.inl (h.trans ht.symm)
    · rw [updateSeen, if_neg ht]
      simp only [sellerKeys, List.map_cons, List.mem_cons] at *
      constructor
      · rintro (h | h)
        · exact Or.inl (Or.inl h)
        · rcases ih.1 h with h' | h'
          · exact Or.inl (Or.inr h')
          · exact Or.inr h'
      · rintro ((h | h) | h)
        · exact Or.inl h
        · exact Or.inr (ih.2 (Or.inl h))
        · exact Or.inr (ih.2 (Or.inr h))

theorem sellerKeys_nodup_updateSeen (acc : List Seller) (s : Seller)
    (h : (sellerKeys acc).Nodup) : (sellerKeys (updateSeen acc s)).Nodup := by
  induction acc with
  | nil => simp [updateSeen, sellerKeys]
  | cons t ts ih =>
    simp only [sellerKeys, List.map_cons, List.nodup_cons] at h
    by_cases ht : sellerKey t = sellerKey s
    · rw [updateSeen, if_pos ht]
      by_cases hp : s.price < t.price
      · simp only [if_pos hp, sellerKeys, List.map_cons, List.nodup_cons]
        exact ⟨fun hc => h.1 (ht ▸ hc), h.2⟩
      · simp only [if_neg hp, sellerKeys, List.map_cons, List.nodup_cons]
        exact ⟨h.1, h.2⟩
    · rw [updateSeen, if_neg ht]
      simp only [sellerKeys, List.map_cons, List.nodup_cons]
      refine ⟨fun hc => ?_, ih h.2⟩
      rcases (mem_sellerKeys_updateSeen ts s (sellerKey t)).1 hc with h' | h'
      · exact h.1 h'
      · exact ht h'

theorem sellerKeys_nodup_dedup_aux (l : List Seller) : ∀ acc : List Seller,
    (sellerKeys acc).Nodup → (sellerKeys (l.foldl updateSeen acc)).Nodup := by
  induction l with
  | nil => intro acc h; simpa using h
  | cons s t ih =>
    intro acc h
    exact ih (updateSeen acc s) (sellerKeys_nodup_updateSeen acc s h)

/-- The deduplicated list has pairwise distinct normalized names. -/
theorem sellerKeys_nodup_dedup (l : List Seller) :
    (sellerKeys (dedupSellers l)).Nodup :=
  sellerKeys_nodup_dedup_aux l [] (by simp [sellerKeys])

theorem filter_key_of_not_mem (k : String) (acc : List Seller)
    (h : k ∉ sellerKeys acc) :
    acc.filter (fun c => decide (sellerKey c = k)) = [] := by
  induction acc with
  | nil => rfl
  | cons t ts ih =>
    simp only [sellerKeys, List.map_cons, List.mem_cons, not_or] at h
    have : ¬ sellerKey t = k := fun hc => h.1 hc.symm
    simp only [List.filter_cons, this, decide_eq_true_eq, if_neg this]
    exact ih (by simpa [sellerKeys] using h.2)

theorem filter_key_of_nodup (k : String) (acc : List Seller)
    (h : (sellerKeys acc).Nodup) :
    acc.filter (fun c => decide (sellerKey c = k)) = (findByKey k acc).toList := by
  induction acc with
  | nil => rfl
  | cons t ts ih =>
    simp only [sellerKeys, List.map_cons, List.nodup_cons] at h
    by_cases ht : sellerKey t = k
    · rw [findByKey, if_pos ht]
      have hnil : ts.filter (fun c => decide (sellerKey c = k)) = [] := by
        apply filter_key_of_not_mem
        intro hc
        exact h.1 (ht ▸ hc)
      simp [List.filter_cons, ht, hnil]
    · rw [findByKey, if_neg ht]
      simp only [List.filter_cons, decide_eq_true_eq, if_neg ht]
      exact ih h.2

/-! ## Lemmas: the first-seen minimum selector -/

theorem bestFold_isSome (l : List Seller) : ∀ t : Seller,
    ∃ b, bestFold (some t) l = some b := by
  induction l with
  | nil => intro t; exact ⟨t, rfl⟩
  | cons c rest ih =>
    intro t
    by_cases hp : c.price < t.price
    · rcases ih c with ⟨b, hb⟩
      exact ⟨b, by simpa [bestFold, bestStep, hp] using hb⟩
    · rcases ih t with ⟨b, hb⟩
      exact ⟨b, by simpa [bestFold, bestStep, hp] using hb⟩

theorem bestFold_spec_aux (l : List Seller) : ∀ (t b : Seller),
    bestFold (some t) l = some b →
    (b = t ∨ (b ∈ l ∧ b.price < t.price ∧
        l.find? (fun c => decide (c.price = b.price)) = some b)) ∧
      b.price ≤ t.price ∧ ∀ c ∈ l, b.price ≤ c.price := by
  induction l with
  | nil =>
    intro t b h
    simp only [bestFold, List.foldl_nil, Option.some.injEq] at h
    subst h
    exact ⟨Or.inl rfl, Nat.le_refl _, by simp⟩
  | cons c rest ih =>
    intro t b h
    by_cases hp : c.price < t.price
    · have h' : bestFold (some c) rest = some b := by
        simpa [bestFold, bestStep, hp] using h
      rcases ih c b h' with ⟨hd, hle, hall⟩
      refine ⟨?_, ?_, ?_⟩
      · rcases hd with rfl | ⟨hm, hlt, hfind⟩
        · exact Or.inr ⟨List.mem_cons_self _ _, hp,
            by simp [List.find?_cons]⟩
        · refine Or.inr ⟨List.mem_cons_of_mem _ hm, Nat.lt_trans hlt hp, ?_⟩
          have hne : ¬ (c.price = b.price) := fun hc => Nat.lt_irrefl _ (hc ▸ hlt)
          simp [List.find?_cons, hne, hfind]
      · exact Nat.le_of_lt (Nat.lt_of_le_of_lt hle hp)
      · intro x hx
        rcases List.mem_cons.1 hx with rfl | hx
        · exact hle
        · exact hall x hx
    · have h' : bestFold (some t) rest = some b := by
        simpa [bestFold, bestStep, hp] using h
      rcases ih t b h' with ⟨hd, hle, hall⟩
      have hct : t.price ≤ c.price := Nat.le_of_not_lt hp
      refine ⟨?_, hle, ?_⟩
      · rcases hd with rfl | ⟨hm, hlt, hfind⟩
        · exact Or.inl rfl
        · refine Or.inr ⟨List.mem_cons_of_mem _ hm, hlt, ?_⟩
          have hne : ¬ (c.price = b.price) := by
            intro hc
            exact Nat.lt_irrefl _ (Nat.lt_of_lt_of_le (hc ▸ hlt) hct)
          simp [List.find?_cons, hne, hfind]
      · intro x hx
        rcases List.mem_cons.1 hx with rfl | hx
        · exact Nat.le_trans hle hct
        · exact hall x hx

/-- The selected candidate of a non-empty group is a member, has the
group's minimum price, and is the first group member with that price. -/
theorem bestFold_spec (grp : List Seller) (b : Seller)
    (h : bestFold none grp = some b) :
    b ∈ grp ∧ (∀ c ∈ grp, b.price ≤ c.price) ∧
      grp.find? (fun c => decide (c.price = b.price)) = some b := by
  cases grp with
  | nil => simp [bestFold] at h
  | cons g rest =>
    have h' : bestFold (some g) rest = some b := by
      simpa [bestFold, bestStep] using h
    rcases bestFold_spec_aux rest g b h' with ⟨hd, hle, hall⟩
    refine ⟨?_, ?_, ?_⟩
    · rcases hd with rfl | ⟨hm, _, _⟩
      · exact List.mem_cons_self _ _
      · exact List.mem_cons_of_mem _ hm
    · intro x hx
      rcases List.mem_cons.1 hx with rfl | hx
      · exact hle
      · exact hall x hx
    · rcases hd with rfl | ⟨hm, hlt, hfind⟩
      · simp [List.find?_cons]
      · have hne : ¬ (g.price = b.price) := fun hc => Nat.lt_irrefl _ (hc ▸ hlt)
        simp [List.find?_cons, hne, hfind]

/-! ## Lemmas: sorting and rank assignment -/

theorem assignRanksFrom_namePrice (l : List Seller) : ∀ n : Nat,
    (assignRanksFrom n l).map (fun s => (s.name, s.price)) =
      l.map (fun s => (s.name, s.price)) := by
  induction l with
  | nil => intro n; rfl
  | cons s t ih => intro n; simp [assignRanksFrom, ih]

theorem assignRanksFrom_keys (l : List Seller) : ∀ n : Nat,
    sellerKeys (assignRanksFrom n l) = sellerKeys l := by
  induction l with
  | nil => intro n; rfl
  | cons s t ih =>
    intro n
    simp only [assignRanksFrom, sellerKeys, List.map_cons]
    exact congrArg _ (ih (n + 1))

theorem assignRanksFrom_ranks (l : List Seller) : ∀ n : Nat,
    (assignRanksFrom n l).map (fun s => s.rank) = List.range' n l.length := by
  induction l with
  | nil => intro n; rfl
  | cons s t ih =>
    intro n
    simp [assignRanksFrom, List.range'_succ, ih]

theorem assignRanksFrom_mem (l : List Seller) : ∀ (n : Nat) (b : Seller),
    b ∈ assignRanksFrom n l → ∃ b₀ ∈ l, b.name = b₀.name ∧ b.price = b₀.price := by
  induction l with
  | nil => intro n b h; simp [assignRanksFrom] at h
  | cons s t ih =>
    intro n b h
    rcases List.mem_cons.1 h with rfl | h
    · exact ⟨s, List.mem_cons_self _ _, rfl, rfl⟩
    · rcases ih (n + 1) b h with ⟨b₀, hm, hn, hp⟩
      exact ⟨b₀, List.mem_cons_of_mem _ hm, hn, hp⟩

theorem assignRanksFrom_pairwise (l : List Seller)
    (h : List.Pairwise priceLE l) : ∀ n : Nat,
    List.Pairwise priceLE (assignRanksFrom n l) := by
  induction l with
  | nil => intro n; exact List.Pairwise.nil
  | cons s t ih =>
    intro n
    rcases List.pairwise_cons.1 h with ⟨hs, ht⟩
    refine List.pairwise_cons.2 ⟨?_, ih ht (n + 1)⟩
    intro b hb
    rcases assignRanksFrom_mem t (n + 1) b hb with ⟨b₀, hm, _, hp⟩
    have : s.price ≤ b₀.price := hs b₀ hm
    simpa [priceLE, hp] using this

theorem assignRanksFrom_idem (l : List Seller) : ∀ n : Nat,
    assignRanksFrom n (assignRanksFrom n l) = assignRanksFrom n l := by
  induction l with
  | nil => intro n; rfl
  | cons s t ih => intro n; simp [assignRanksFrom, ih (n + 1)]

theorem filter_price_orderedInsert (x : Seller) (l : List Seller) (p : Nat) :
    (List.orderedInsert priceLE x l).filter (fun s => decide (s.price = p)) =
      (x :: l).filter (fun s => decide (s.price = p)) := by
  induction l with
  | nil => rfl
  | cons b t ih =>
    by_cases hxb : priceLE x b
    · rw [List.orderedInsert, if_pos hxb]
    · rw [List.orderedInsert, if_neg hxb]
      have hbx : b.price < x.price := Nat.lt_of_not_le hxb
      by_cases hb : b.price = p
      · have hx : ¬ (x.price = p) := by
          intro hc
          omega
        simp [List.filter_cons, hb, hx, ih]
      · simp [List.filter_cons, hb, ih]

theorem filter_price_insertionSort (l : List Seller) (p : Nat) :
    (List.insertionSort priceLE l).filter (fun s => decide (s.price = p)) =
      l.filter (fun s => decide (s.price = p)) := by
  induction l with
  | nil => rfl
  | cons x t ih =>
    rw [List.insertionSort, filter_price_orderedInsert]
    simp only [List.filter_cons]
    by_cases hx : x.price = p
    · simp [hx, ih]
    · simp [hx, ih]

/-! ## Lemmas: the assembled merge/rank step -/

theorem mergeRank_namePrice (l : List Seller) :
    (mergeRank l).map (fun s => (s.name, s.price)) =
      (List.insertionSort priceLE (dedupSellers l)).map (fun s => (s.name, s.price)) :=
  assignRanksFrom_namePrice _ 1

theorem mergeRank_sorted (l : List Seller) :
    List.Pairwise priceLE (mergeRank l) :=
  assignRanksFrom_pairwise _ (List.sorted_insertionSort priceLE (dedupSellers l)) 1

theorem mergeRank_ranks (l : List Seller) :
    (mergeRank l).map (fun s => s.rank) = List.range' 1 (mergeRank l).length := by
  have hlen : (mergeRank l).length =
      (List.insertionSort priceLE (dedupSellers l)).length := by
    have := assignRanksFrom_namePrice (List.insertionSort priceLE (dedupSellers l)) 1
    have hmap := congrArg List.length this
    simpa [mergeRank] using hmap
  rw [hlen]
  exact assignRanksFrom_ranks _ 1

theorem countP_key_assignRanksFrom (l : List Seller) (n : Nat) (k : String) :
    (assignRanksFrom n l).countP (fun o => decide (sellerKey o = k)) =
      l.countP (fun o => decide (sellerKey o = k)) := by
  induction l generalizing n with
  | nil => rfl
  | cons s t ih =>
    simp only [assignRanksFrom, List.countP_cons]
    rw [ih (n + 1)]
    rfl

theorem countP_key_mergeRank (l : List Seller) (k : String) :
    (mergeRank l).countP (fun o => decide (sellerKey o = k)) =
      (dedupSellers l).countP (fun o => decide (sellerKey o = k)) := by
  rw [mergeRank, countP_key_assignRanksFrom]
  exact (List.perm_insertionSort priceLE (dedupSellers l)).countP_eq _

theorem countP_key_dedup_of_find (l : List Seller) (k : String) (b : Seller)
    (h : findByKey k (dedupSellers l) = some b) :
    (dedupSellers l).countP (fun o => decide (sellerKey o = k)) = 1 := by
  rw [List.countP_eq_length_filter,
    filter_key_of_nodup k (dedupSellers l) (sellerKeys_nodup_dedup l), h]
  rfl

theorem mergeRank_mem_namePrice (l : List Seller) (b : Seller)
    (h : b ∈ List.insertionSort priceLE (dedupSellers l)) :
    ∃ o ∈ mergeRank l, o.name = b.name ∧ o.price = b.price := by
  have hmem : (b.name, b.price) ∈
      (mergeRank l).map (fun s => (s.name, s.price)) := by
    rw [mergeRank_namePrice]
    exact List.mem_map_of_mem _ h
  rcases List.mem_map.1 hmem with ⟨o, ho, heq⟩
  exact ⟨o, ho, congrArg Prod.fst heq, congrArg Prod.snd heq⟩

/-! ## Lemmas: idempotence of the merge -/

theorem updateSeen_append (acc : List Seller) (s : Seller)
    (h : sellerKey s ∉ sellerKeys acc) : updateSeen acc s = acc ++ [s] := by
  induction acc with
  | nil => rfl
  | cons t ts ih =>
    simp only [sellerKeys, List.map_cons, List.mem_cons, not_or] at h
    have ht : ¬ sellerKey t = sellerKey s := fun hc => h.1 hc.symm
    rw [updateSeen, if_neg ht, ih (by simpa [sellerKeys] using h.2)]
    rfl

theorem dedup_foldl_of_nodup (d : List Seller) : ∀ acc : List Seller,
    (sellerKeys (acc ++ d)).Nodup → d.foldl updateSeen acc = acc ++ d := by
  induction d with
  | nil => intro acc _; simp
  | cons c t ih =>
    intro acc h
    have hkeys : sellerKeys (acc ++ c :: t) =
        sellerKeys acc ++ sellerKey c :: sellerKeys t := by
      simp [sellerKeys]
    rw [hkeys] at h
    have hc : sellerKey c ∉ sellerKeys acc := by
      intro hm
      rcases List.nodup_append.1 h with ⟨_, _, hdisj⟩
      exact hdisj hm (List.mem_cons_self _ _)
    rw [List.foldl_cons, updateSeen_append acc c hc]
    have h' : (sellerKeys ((acc ++ [c]) ++ t)).Nodup := by
      have : (acc ++ [c]) ++ t = acc ++ c :: t := by simp
      rw [this, hkeys]
      exact h
    rw [ih (acc ++ [c]) h']
    simp

/-- Deduplicating a list whose normalized names are already pairwise
distinct leaves it unchanged. -/
theorem dedup_of_nodup (d : List Seller) (h : (sellerKeys d).Nodup) :
    dedupSellers d = d := by
  have := dedup_foldl_of_nodup d [] (by simpa using h)
  simpa [dedupSellers] using this

theorem sellerKeys_nodup_mergeRank (l : List Seller) :
    (sellerKeys (mergeRank l)).Nodup := by
  rw [mergeRank, assignRanksFrom_keys]
  have hperm : List.Perm (sellerKeys (List.insertionSort priceLE (dedupSellers l)))
      (sellerKeys (dedupSellers l)) :=
    (List.perm_insertionSort priceLE (dedupSellers l)).map sellerKey
  exact hperm.nodup_iff.2 (sellerKeys_nodup_dedup l)

theorem insertionSort_mergeRank (l : List Seller) :
    List.insertionSort priceLE (mergeRank l) = mergeRank l := by
  have hs : List.Sorted priceLE (mergeRank l) := mergeRank_sorted l
  exact hs.insertionSort_eq

theorem assignRanks_mergeRank (l : List Seller) :
    assignRanksFrom 1 (mergeRank l) = mergeRank l :=
  assignRanksFrom_idem _ 1

/-! ## Claim theorems and their witnesses

Each claim of the specification is settled by exactly one theorem below
(plus, where the claim fails on the code, a closed counterexample at a
concrete input). -/

/-- C1 (counterexample): merging the two candidates
`{"shopA", 1500}` and `{"ShopA ", 1200}` yields one offer that carries
the *raw* name of the winning candidate, `"ShopA "` — not the normalized
name `"shopa"` the claim promises: `seen[key] = s` at `server.py`
line 339 stores the raw candidate dictionary, normalizing only the dict
key. -/
theorem merge_keeps_raw_name_counterexample :
    mergeRank [⟨"shopA", 1500, "", 0⟩, ⟨"ShopA ", 1200, "", 0⟩] =
      [⟨"ShopA ", 1200, "", 1⟩] ∧
    normName "ShopA " = "shopa" ∧ ("ShopA " : String) ≠ "shopa" := by
  refine ⟨by decide, by decide, by decide⟩

/-- C1 (amended): for any two candidates of the raw list whose names
agree after trimming and case-folding, the merged snapshot contains
exactly one offer for that normalized name; the kept candidate is a
member of the group with the minimum of the group's prices, and among
the group members with that minimum price it is the first-seen one; the
surviving offer retains that candidate's original (un-normalized) name
and its price. -/
theorem merge_dedup_min_first_seen (l : List Seller) (c₁ c₂ : Seller)
    (h₁ : c₁ ∈ l) (_h₂ : c₂ ∈ l) (_hk : sellerKey c₁ = sellerKey c₂) :
    ∃ b ∈ l, sellerKey b = sellerKey c₁ ∧
      (∀ c ∈ l, sellerKey c = sellerKey c₁ → b.price ≤ c.price) ∧
      (l.filter (fun c => decide (sellerKey c = sellerKey c₁))).find?
        (fun c => decide (c.price = b.price)) = some b ∧
      (mergeRank l).countP (fun o => decide (sellerKey o = sellerKey c₁)) = 1 ∧
      ∃ o ∈ mergeRank l, o.name = b.name ∧ o.price = b.price := by
  obtain ⟨b, hb⟩ : ∃ b, bestFold none
      (l.filter (fun c => decide (sellerKey c = sellerKey c₁))) = some b := by
    cases hgc : l.filter (fun c => decide (sellerKey c = sellerKey c₁)) with
    | nil =>
      have hc₁ : c₁ ∈ l.filter (fun c => decide (sellerKey c = sellerKey c₁)) :=
        List.mem_filter.2 ⟨h₁, by simp⟩
      rw [hgc] at hc₁
      cases hc₁
    | cons g t =>
      rcases bestFold_isSome t g with ⟨b, hbf⟩
      exact ⟨b, by simpa [bestFold, bestStep] using hbf⟩
  have hfind : findByKey (sellerKey c₁) (dedupSellers l) = some b := by
    rw [dedup_find l (sellerKey c₁), hb]
  rcases bestFold_spec _ b hb with ⟨hbg, hmin, hfirst⟩
  have hbl : b ∈ l := List.mem_of_mem_filter hbg
  have hbk : sellerKey b = sellerKey c₁ := by
    have := (List.mem_filter.1 hbg).2
    simpa using this
  refine ⟨b, hbl, hbk, ?_, hfirst, ?_, ?_⟩
  · intro c hc hck
    exact hmin c (List.mem_filter.2 ⟨hc, by simp [hck]⟩)
  · rw [countP_key_mergeRank]
    exact countP_key_dedup_of_find l (sellerKey c₁) b hfind
  · have hbd : b ∈ dedupSellers l := (findByKey_mem _ _ b hfind).1
    have hbs : b ∈ List.insertionSort priceLE (dedupSellers l) :=
      ((List.perm_insertionSort priceLE (dedupSellers l)).mem_iff).2 hbd
    exact mergeRank_mem_namePrice l b hbs

/-- Witness for C1 (amended) at the concrete duplicate pair
`{"shopA", 1500}` / `{"ShopA ", 1200}`. -/
theorem merge_dedup_min_first_seen_witness :
    ∃ b ∈ [(⟨"shopA", 1500, "", 0⟩ : Seller), ⟨"ShopA ", 1200, "", 0⟩],
      sellerKey b = sellerKey (⟨"shopA", 1500, "", 0⟩ : Seller) ∧
      (∀ c ∈ [(⟨"shopA", 1500, "", 0⟩ : Seller), ⟨"ShopA ", 1200, "", 0⟩],
        sellerKey c = sellerKey (⟨"shopA", 1500, "", 0⟩ : Seller) →
          b.price ≤ c.price) ∧
      (([(⟨"shopA", 1500, "", 0⟩ : Seller), ⟨"ShopA ", 1200, "", 0⟩]).filter
        (fun c => decide (sellerKey c =
          sellerKey (⟨"shopA", 1500, "", 0⟩ : Seller)))).find?
        (fun c => decide (c.price = b.price)) = some b ∧
      (mergeRank [(⟨"shopA", 1500, "", 0⟩ : Seller), ⟨"ShopA ", 1200, "", 0⟩]).countP
        (fun o => decide (sellerKey o =
          sellerKey (⟨"shopA", 1500, "", 0⟩ : Seller))) = 1 ∧
      ∃ o ∈ mergeRank [(⟨"shopA", 1500, "", 0⟩ : Seller), ⟨"ShopA ", 1200, "", 0⟩],
        o.name = b.name ∧ o.price = b.price :=
  merge_dedup_min_first_seen
    [⟨"shopA", 1500, "", 0⟩, ⟨"ShopA ", 1200, "", 0⟩]
    ⟨"shopA", 1500, "", 0⟩ ⟨"ShopA ", 1200, "", 0⟩
    (by decide) (by decide) (by decide)

/-- C2: every snapshot produced by the merge/rank step is sorted
ascending by price; ranks are dense and 1-based (the rank column is
exactly `[1, 2, ..., n]` in order); and the sort is stable — for every
price, the offers carrying that price appear in the same (name, price)
order as in the pre-sort deduplicated list. -/
theorem snapshot_sorted_ranked_stable (l : List Seller) :
    List.Pairwise (fun a b : Seller => a.price ≤ b.price) (mergeRank l) ∧
    (mergeRank l).map (fun s => s.rank) = List.range' 1 (mergeRank l).length ∧
    ∀ p : Nat,
      ((mergeRank l).map (fun s => (s.name, s.price))).filter
        (fun q => decide (q.2 = p)) =
      ((dedupSellers l).map (fun s => (s.name, s.price))).filter
        (fun q => decide (q.2 = p)) := by
  refine ⟨mergeRank_sorted l, mergeRank_ranks l, ?_⟩
  intro p
  rw [mergeRank_namePrice]
  have h1 : ∀ m : List Seller,
      (m.map (fun s => (s.name, s.price))).filter (fun q => decide (q.2 = p)) =
        (m.filter (fun s => decide (s.price = p))).map
          (fun s => (s.name, s.price)) := by
    intro m
    induction m with
    | nil => rfl
    | cons x t ih =>
      by_cases hx : x.price = p
      · simp [List.filter_cons, hx, ih]
      · simp [List.filter_cons, hx, ih]
  rw [h1, h1, filter_price_insertionSort]

/-- C3: the merge/dedup/rank step is idempotent — re-merging an
already-merged snapshot's offers yields that snapshot unchanged (and the
step is deterministic, being a pure function of its input list). -/
theorem mergeRank_idempotent (l : List Seller) :
    mergeRank (mergeRank l) = mergeRank l := by
  conv_lhs => rw [mergeRank]
  rw [dedup_of_nodup _ (sellerKeys_nodup_mergeRank l), insertionSort_mergeRank,
    assignRanks_mergeRank]

/-- C4 (counterexample): the claim promises that 100 and 500000 are both
accepted as prices, but both range checks in the code are strict: the
element classifier (`p > 50 && p < 500000`) rejects 500000, and the
free-text classifier (`100 < price < 100000`) rejects both 100 and
500000. -/
theorem price_range_counterexample :
    priceInRange 500000 = false ∧ textPriceInRange 500000 = false ∧
      textPriceInRange 100 = false := by
  refine ⟨by decide, by decide, by decide⟩

/-- C4 (amended): the code has two price-token range checks, both with
exclusive bounds: the structural-element classifier accepts exactly the
values 51..499999 (`50 < p < 500000`) and the free-text classifier
exactly 101..99999 (`100 < p < 100000`).  Hence every value of 50 or
below is rejected by both, and 500001 is rejected by both — but 500000
is rejected too, and 100 is rejected as well. -/
theorem price_range_bounds (p : Nat) :
    (priceInRange p = true ↔ 50 < p ∧ p < 500000) ∧
    (textPriceInRange p = true ↔ 100 < p ∧ p < 100000) ∧
    priceInRange 50 = false ∧ priceInRange 51 = true ∧
    priceInRange 100 = true ∧ priceInRange 499999 = true ∧
    textPriceInRange 101 = true ∧ textPriceInRange 99999 = true ∧
    textPriceInRange 100000 = false ∧
    priceInRange 500001 = false ∧ textPriceInRange 500001 = false := by
  refine ⟨?_, ?_, by decide, by decide, by decide, by decide, by decide,
    by decide, by decide, by decide, by decide⟩
  · simp [priceInRange]
  · simp [textPriceInRange]

/-- Witness for C4 (amended) at the concrete value 200, accepted by both
classifiers. -/
theorem price_range_bounds_witness :
    ((priceInRange 200 = true ↔ 50 < 200 ∧ 200 < 500000) ∧
    (textPriceInRange 200 = true ↔ 100 < 200 ∧ 200 < 100000) ∧
    priceInRange 50 = false ∧ priceInRange 51 = true ∧
    priceInRange 100 = true ∧ priceInRange 499999 = true ∧
    textPriceInRange 101 = true ∧ textPriceInRange 99999 = true ∧
    textPriceInRange 100000 = false ∧
    priceInRange 500001 = false ∧ textPriceInRange 500001 = false) ∧
    priceInRange 200 = true ∧ textPriceInRange 200 = true :=
  ⟨price_range_bounds 200, by decide, by decide⟩

/-- C9 (counterexample): the structural-element name check accepts the
one-character fragment `"A"` — its condition is `n.length > 0`, not the
claimed inclusive lower bound of 2. -/
theorem name_length_counterexample :
    nameOk "A" = true ∧ ("A" : String).length = 1 := by
  refine ⟨by decide, by decide⟩

/-- C9 (amended): the name classifier accepts a fragment exactly when
its trimmed length is between 1 and 49 inclusive (`n.length > 0 &&
n.length < 50`): the empty (or all-whitespace) fragment is rejected and
a 50-character fragment is rejected, but one-character fragments are
accepted. -/
theorem name_length_bounds (s : String) :
    (nameOk s = true ↔
      1 ≤ (pyStrip s.data).length ∧ (pyStrip s.data).length ≤ 49) ∧
    nameOk "" = false ∧ nameOk ⟨List.replicate 50 'a'⟩ = false ∧
    nameOk ⟨List.replicate 49 'a'⟩ = true := by
  refine ⟨?_, by decide, by decide, by decide⟩
  simp only [nameOk, Bool.and_eq_true, decide_eq_true_eq]
  omega

/-- Witness for C9 (amended) at the concrete fragment `" shop "`. -/
theorem name_length_bounds_witness :
    ((nameOk " shop " = true ↔
      1 ≤ (pyStrip " shop ".data).length ∧ (pyStrip " shop ".data).length ≤ 49) ∧
    nameOk "" = false ∧ nameOk ⟨List.replicate 50 'a'⟩ = false ∧
    nameOk ⟨List.replicate 49 'a'⟩ = true) ∧
    nameOk " shop " = true :=
  ⟨name_length_bounds " shop ", by decide⟩

/-! ## Lemmas: the strategy selector -/

theorem runStrats_not_invoked (seq : List (Strat × List Seller)) :
    ∀ (i j : Nat) (t s : Strat) (ot os : List Seller),
      (seq.map Prod.fst).Nodup → i < j →
      seq[i]? = some (t, ot) → seq[j]? = some (s, os) → ot ≠ [] →
      s ∉ (runStrats seq).2 := by
  induction seq with
  | nil =>
    intro i j t s ot os _ _ hi _
    simp at hi
  | cons p rest ih =>
    intro i j t s ot os hnd hij hi hj hne
    obtain ⟨p₁, p₂⟩ := p
    simp only [List.map_cons, List.nodup_cons] at hnd
    cases j with
    | zero => omega
    | succ j' =>
      rw [List.getElem?_cons_succ] at hj
      have hsmem : s ∈ rest.map Prod.fst :=
        List.mem_map_of_mem Prod.fst (List.getElem?_mem hj)
      have hsne : s ≠ p₁ := fun hc => hnd.1 (hc ▸ hsmem)
      by_cases hp : p₂ = []
      · simp only [runStrats, if_pos hp]
        intro hmem
        rcases List.mem_cons.1 hmem with hc | hmem'
        · exact hsne hc
        · cases i with
          | zero =>
            rw [List.getElem?_cons_zero] at hi
            simp only [Option.some.injEq, Prod.mk.injEq] at hi
            exact hne (hi.2 ▸ hp)
          | succ i' =>
            rw [List.getElem?_cons_succ] at hi
            exact ih i' j' t s ot os hnd.2 (Nat.lt_of_succ_lt_succ hij)
              hi hj hne hmem'
      · simp only [runStrats, if_neg hp]
        intro hmem
        rcases List.mem_cons.1 hmem with hc | hmem'
        · exact hsne hc
        · simp at hmem'

theorem runStrats_result (seq : List (Strat × List Seller)) :
    ∀ (i : Nat) (s : Strat) (os : List Seller),
      (seq.map Prod.fst).Nodup →
      seq[i]? = some (s, os) → s ∈ (runStrats seq).2 → os ≠ [] →
      (runStrats seq).1 = os := by
  induction seq with
  | nil =>
    intro i s os _ hi _ _
    simp at hi
  | cons p rest ih =>
    intro i s os hnd hi hmem hne
    obtain ⟨p₁, p₂⟩ := p
    simp only [List.map_cons, List.nodup_cons] at hnd
    by_cases hp : p₂ = []
    · simp only [runStrats, if_pos hp] at hmem ⊢
      cases i with
      | zero =>
        rw [List.getElem?_cons_zero] at hi
        simp only [Option.some.injEq, Prod.mk.injEq] at hi
        exact absurd (by rw [← hi.2]; exact hp) hne
      | succ i' =>
        rw [List.getElem?_cons_succ] at hi
        rcases List.mem_cons.1 hmem with rfl | hmem'
        · have : s ∈ rest.map Prod.fst :=
            List.mem_map_of_mem Prod.fst (List.getElem?_mem hi)
          exact absurd this hnd.1
        · exact ih i' s os hnd.2 hi hmem' hne
    · simp only [runStrats, if_neg hp] at hmem ⊢
      have hs : s = p₁ := by simpa using hmem
      subst hs
      cases i with
      | zero =>
        rw [List.getElem?_cons_zero] at hi
        simp only [Option.some.injEq, Prod.mk.injEq] at hi
        exact hi.2
      | succ i' =>
        rw [List.getElem?_cons_succ] at hi
        have : s ∈ rest.map Prod.fst :=
          List.mem_map_of_mem Prod.fst (List.getElem?_mem hi)
        exact absurd this hnd.1

theorem stratSeq_get (pg : Page) (u : Strat) :
    (stratSeq pg)[stratIdx u]? = some (u, stratOut pg u) := by
  cases u <;> rfl

theorem stratSeq_fst_nodup (pg : Page) :
    ((stratSeq pg).map Prod.fst).Nodup := by
  simp only [stratSeq, List.map_cons, List.map_nil]
  decide

/-- C5 (counterexample): the free-text strategy is the *last* fallback,
not the first: on a page where only the body text yields a candidate,
the free-text strategy produces a non-empty list and yet the
structural-element (DOM selector) and structured-response (AJAX)
strategies have both been invoked — contradicting the claim that they
are never invoked when the text strategy yields a candidate. -/
theorem text_strategy_runs_last_counterexample :
    stratOut ⟨[], [], [], [], [], "1,200円"⟩ Strat.freeTextScan ≠ [] ∧
    Strat.selectorScan ∈ (pipeline ⟨[], [], [], [], [], "1,200円"⟩).2 ∧
    Strat.ajaxApi ∈ (pipeline ⟨[], [], [], [], [], "1,200円"⟩).2 := by
  refine ⟨by decide, by decide, by decide⟩

/-- C5 (amended): the selector does run the strategies in a fixed
priority order with short-circuiting — whenever an earlier strategy
yields a non-empty candidate list, no later strategy is invoked, and the
recovered list is the output of the invoked strategy that produced it —
but the fixed order is DOM-selector scan, embedded-script scan,
price-element scan, AJAX API, HTML regex, and the free-text line scan
*last*; in particular, when the free-text strategy yields candidates,
all other strategies have already been invoked (and yielded nothing). -/
theorem strategy_short_circuit (pg : Page) (s t : Strat)
    (hord : stratIdx t < stratIdx s) (hne : stratOut pg t ≠ []) :
    s ∉ (pipeline pg).2 ∧
      ∀ u : Strat, u ∈ (pipeline pg).2 → stratOut pg u ≠ [] →
        (pipeline pg).1 = stratOut pg u := by
  constructor
  · exact runStrats_not_invoked (stratSeq pg) (stratIdx t) (stratIdx s) t s
      (stratOut pg t) (stratOut pg s) (stratSeq_fst_nodup pg) hord
      (stratSeq_get pg t) (stratSeq_get pg s) hne
  · intro u hu hne'
    exact runStrats_result (stratSeq pg) (stratIdx u) u (stratOut pg u)
      (stratSeq_fst_nodup pg) (stratSeq_get pg u) hu hne'

/-- Witness for C5 (amended): on a page whose DOM selector scan yields a
candidate, the embedded-script strategy is not invoked. -/
theorem strategy_short_circuit_witness :
    Strat.scriptScan ∉
      (pipeline ⟨[⟨"a", 100, "", 0⟩], [⟨"b", 200, "", 0⟩], [], [], [], ""⟩).2 ∧
      ∀ u : Strat,
        u ∈ (pipeline ⟨[⟨"a", 100, "", 0⟩], [⟨"b", 200, "", 0⟩], [], [], [], ""⟩).2 →
        stratOut ⟨[⟨"a", 100, "", 0⟩], [⟨"b", 200, "", 0⟩], [], [], [], ""⟩ u ≠ [] →
        (pipeline ⟨[⟨"a", 100, "", 0⟩], [⟨"b", 200, "", 0⟩], [], [], [], ""⟩).1 =
          stratOut ⟨[⟨"a", 100, "", 0⟩], [⟨"b", 200, "", 0⟩], [], [], [], ""⟩ u :=
  strategy_short_circuit ⟨[⟨"a", 100, "", 0⟩], [⟨"b", 200, "", 0⟩], [], [], [], ""⟩
    Strat.scriptScan Strat.selectorScan (by decide) (by decide)

/-- C6 (counterexample): the free-text line scan has no cross-line
current-name slot.  The name is the text before the price match on the
*same* line (`line[:line.find(m.group(0))]`, `server.py` lines 293-296),
which is empty for `"1,200円"` and `"2,000円"`, so both candidates get
the default name `"셀러"` and the merge collapses them into a single
offer — not the claimed two-offer snapshot named by the preceding
lines. -/
theorem text_scan_slotless_counterexample :
    mergeRank (textScanRun "ShopA\nメガポ時\n1,200円\nShopB\n2,000円") =
      [⟨"셀러", 1200, "", 1⟩] ∧
    mergeRank (textScanRun "ShopA\nメガポ時\n1,200円\nShopB\n2,000円") ≠
      [⟨"ShopA", 1200, "", 1⟩, ⟨"ShopB", 2000, "", 2⟩] := by
  refine ⟨by decide, by decide⟩

/-- C6 (amended): the free-text scan keeps no state between lines — the
candidates of a concatenation of line blocks are the concatenation of
each block's candidates — and the name of each candidate is taken from
the text preceding the price match on its own line (stripped, truncated
to 30 characters, the default `"셀러"` when empty); consequently the
scenario input yields the single-offer snapshot
`[{name:"셀러", price:1200, rank:1}]`. -/
theorem text_scan_linewise (l₁ l₂ : List String) (r₁ r₂ : List Seller)
    (h₁ : textScanE l₁ = Except.ok r₁) (h₂ : textScanE l₂ = Except.ok r₂) :
    textScanE (l₁ ++ l₂) = Except.ok (r₁ ++ r₂) ∧
    mergeRank (textScanRun "ShopA\nメガポ時\n1,200円\nShopB\n2,000円") =
      [⟨"셀러", 1200, "", 1⟩] := by
  refine ⟨?_, by decide⟩
  induction l₁ generalizing r₁ with
  | nil =>
    simp only [textScanE, Except.ok.injEq] at h₁
    subst h₁
    simpa using h₂
  | cons line rest ih =>
    cases hl : lineResult line with
    | error e => simp [textScanE, hl] at h₁
    | ok o =>
      cases o with
      | none =>
        simp only [List.cons_append, textScanE, hl] at h₁ ⊢
        exact ih r₁ h₁
      | some c =>
        simp only [List.cons_append, textScanE, hl] at h₁ ⊢
        cases hr : textScanE rest with
        | error e => simp [hr] at h₁
        | ok cs =>
          rw [hr] at h₁
          simp only [Except.ok.injEq] at h₁
          subst h₁
          rw [List.append_eq, ih cs hr]
          simp

/-- Witness for C6 (amended) at concrete one-line blocks. -/
theorem text_scan_linewise_witness :
    textScanE (["1,200円"] ++ ["2,000円"]) =
      Except.ok ([(⟨"셀러", 1200, "", 0⟩ : Seller)] ++ [⟨"셀러", 2000, "", 0⟩]) ∧
    mergeRank (textScanRun "ShopA\nメガポ時\n1,200円\nShopB\n2,000円") =
      [⟨"셀러", 1200, "", 1⟩] :=
  text_scan_linewise ["1,200円"] ["2,000円"]
    [⟨"셀러", 1200, "", 0⟩] [⟨"셀러", 2000, "", 0⟩] rfl rfl

/-- C7 (code bug): the recent-drop-count query does *not* implement the
trailing 24-hour window its own docstring ("24시간 내 인하 횟수") and
the spec promise.  Failing input: one `price_changes` row — an applied
strict drop (1500 → 1200) for catalog 1, created at
2026-10-11 20:00:00 UTC (stored by `DEFAULT CURRENT_TIMESTAMP` as the
TEXT `"2026-10-11 20:00:00"`) — queried at 2026-10-12 10:00:00, so that
`since = 2026-10-11 10:00:00` and the event is 14 hours old, strictly
inside the window: the claim says the count is 1.  But the code compares
the stored text with the `isoformat()` bound `"2026-10-11T10:00:00"`
byte-wise, and at the separator byte `' '` (0x20) sorts below `'T'`
(0x54), so every row dated the same calendar day as `since` fails
`created_at >= ?` regardless of its time of day, and the query returns
0. -/
theorem recent_drops_window_bug :
    chronoLE ⟨2026, 10, 11, 10, 0, 0⟩ ⟨2026, 10, 11, 20, 0, 0⟩ = true ∧
    chronoLE ⟨2026, 10, 11, 20, 0, 0⟩ ⟨2026, 10, 12, 10, 0, 0⟩ = true ∧
    (⟨1, some 1500, 1200, true, ⟨2026, 10, 11, 20, 0, 0⟩⟩ :
      PriceChangeRow).applied = true ∧ (1200 : Int) < 1500 ∧
    sqliteTimestampText ⟨2026, 10, 11, 20, 0, 0⟩ = "2026-10-11 20:00:00" ∧
    isoformatText ⟨2026, 10, 11, 10, 0, 0⟩ = "2026-10-11T10:00:00" ∧
    memcmpLE (isoformatText ⟨2026, 10, 11, 10, 0, 0⟩).data
      (sqliteTimestampText ⟨2026, 10, 11, 20, 0, 0⟩).data = false ∧
    recentDropsSql [⟨1, some 1500, 1200, true, ⟨2026, 10, 11, 20, 0, 0⟩⟩] 1
      ⟨2026, 10, 11, 10, 0, 0⟩ = 0 := by
  refine ⟨by decide, by decide, rfl, by decide, by decide, by decide,
    by decide, by decide⟩

/-- C8: a failure in one catalog's extraction never escapes to the
caller and never aborts the rest of a batch: the batch result is
compositional in the entry list (so entries after a failing one are
still processed); an entry whose extraction setup fails yields the
outcome `success: False` with an empty seller list; every single-catalog
outcome is either a success or exactly that failure outcome; and an
exception inside the rendering/extraction `try` block is converted to an
empty (successful) result by the handler at `server.py` line 301. -/
theorem batch_failure_isolated (l₁ l₂ : List BatchEntry) (cat : Nat)
    (msg : String) :
    apiScrapeAll (l₁ ++ l₂) = apiScrapeAll l₁ ++ apiScrapeAll l₂ ∧
    apiScrapeAll [(some (cat + 1), CatalogFetch.initFailure msg)] =
      [(cat + 1, ⟨false, []⟩)] ∧
    (∀ f : CatalogFetch, ((apiScrape cat f).1).success = true ∨
      (apiScrape cat f).1 = ⟨false, []⟩) ∧
    scrapeCatalogSync (CatalogFetch.fetched (Except.error msg)) =
      Except.ok [] := by
  refine ⟨?_, rfl, ?_, rfl⟩
  · induction l₁ with
    | nil => simp [apiScrapeAll]
    | cons e rest ih =>
      obtain ⟨c?, f⟩ := e
      cases c? with
      | none => simpa [apiScrapeAll] using ih
      | some c =>
        cases c with
        | zero => simpa [apiScrapeAll] using ih
        | succ c' => simp [apiScrapeAll, ih]
  · intro f
    cases f with
    | initFailure m => exact Or.inr rfl
    | fetched r =>
      cases r with
      | error m => exact Or.inl rfl
      | ok pg => exact Or.inl rfl

/-- C10: snapshot rows are persisted exactly when the merged seller list
is non-empty — an extraction run that recovers zero sellers writes
nothing to the snapshot store (while the caller still gets a success
outcome with an empty list), and whenever a write happens it consists of
the non-empty row list of the returned snapshot. -/
theorem empty_snapshot_not_persisted (cat : Nat) (f : CatalogFetch) :
    ((apiScrape cat f).1.sellers = [] ↔ (apiScrape cat f).2 = none) ∧
    (∀ rows, (apiScrape cat f).2 = some rows →
      rows ≠ [] ∧ rows = snapshotRows cat (apiScrape cat f).1.sellers) ∧
    (scrapeCatalogSync f = Except.ok [] →
      apiScrape cat f = (⟨true, []⟩, none)) := by
  cases hsc : scrapeCatalogSync f with
  | error m =>
    refine ⟨by simp [apiScrape, hsc], ?_, ?_⟩
    · intro rows hr
      simp [apiScrape, hsc] at hr
    · intro h
      cases h
  | ok raw =>
    by_cases hm : mergeRank raw = []
    · refine ⟨by simp [apiScrape, hsc, hm], ?_, ?_⟩
      · intro rows hr
        simp [apiScrape, hsc, hm] at hr
      · intro _
        simp [apiScrape, hsc, hm]
    · refine ⟨by simp [apiScrape, hsc, hm], ?_, ?_⟩
      · intro rows hr
        simp only [apiScrape, hsc, if_neg hm, Option.some.injEq] at hr
        subst hr
        refine ⟨?_, by simp [apiScrape, hsc, hm]⟩
        simp [snapshotRows, hm]
      · intro h
        injection h with h'
        subst h'
        exact absurd rfl hm

/-- Witness for C10 at a concrete render failure and at a concrete
successful render that recovers zero sellers. -/
theorem empty_snapshot_not_persisted_witness :
    (((apiScrape 7 (CatalogFetch.fetched (Except.error "boom"))).1.sellers = [] ↔
      (apiScrape 7 (CatalogFetch.fetched (Except.error "boom"))).2 = none) ∧
    (∀ rows, (apiScrape 7 (CatalogFetch.fetched (Except.error "boom"))).2 =
        some rows →
      rows ≠ [] ∧ rows = snapshotRows 7
        (apiScrape 7 (CatalogFetch.fetched (Except.error "boom"))).1.sellers) ∧
    (scrapeCatalogSync (CatalogFetch.fetched (Except.error "boom")) =
        Except.ok [] →
      apiScrape 7 (CatalogFetch.fetched (Except.error "boom")) =
        (⟨true, []⟩, none))) ∧
    apiScrape 7 (CatalogFetch.fetched (Except.error "boom")) =
      (⟨true, []⟩, none) :=
  ⟨empty_snapshot_not_persisted 7 (CatalogFetch.fetched (Except.error "boom")),
    (empty_snapshot_not_persisted 7
      (CatalogFetch.fetched (Except.error "boom"))).2.2 rfl⟩

end Qoo10
